import Mathlib

/-!
Verification of the BeyondChats citation pipeline
(`Citationer.py`, `Methods.py`, `Fetcher.py`).

The development shallowly embeds the Python code:

* JSON values become the inductive type `J`; Python dictionary access
  (`d[k]`, `d.get(k, dflt)`, `k in d`) becomes explicit functions that
  return `Except` when Python would raise (`KeyError`, `AttributeError`,
  `TypeError`).
* The pure data-processing functions (`extract_citations`,
  `match_sources`, `process_data`) become Lean functions over `J`.
  The semantic-similarity score produced by the transformer model is an
  abstract parameter `sim : J → J → ℚ`; everything downstream of the
  score (the threshold comparison and list construction) is embedded
  faithfully.
* The `__main__` sweep loops of `Citationer.py` and `Fetcher.py` become
  a small-step transition relation `Step` over machine states that
  record the page counter, a program-phase marker, and the file system
  (written page files plus the progress file).  Fetch outcomes are
  nondeterministic in the relation; a `kill` transition models process
  termination at any point.
-/

/-- JSON values, the data manipulated by the pipeline.  Numbers are
modelled as integers: every number the pipeline itself creates or reads
(`id`, `last_page`, page indices) is integral. -/
inductive J where
  | null
  | bool (b : Bool)
  | num (n : Int)
  | str (s : String)
  | arr (elems : List J)
  | obj (fields : List (String × J))

/-- Key lookup in an object's field list (first match; the objects the
pipeline builds and reads have distinct keys, as Python dicts do). -/
def jLookup : List (String × J) → String → Option J
  | [], _ => none
  | (k2, v) :: rest, k => if k2 = k then some v else jLookup rest k

/-- Total dictionary access with a default, usable when the value is
statically known to be a dict: models Python `d.get(k, dflt)`. -/
def jGet (d : J) (k : String) (dflt : J) : J :=
  match d with
  | .obj fs => (jLookup fs k).getD dflt
  | _ => dflt

/-- Python `d.get(k, dflt)` on an arbitrary value: raises
`AttributeError` when `d` is not a dict (this is exactly what happens
when `process_data` receives a singly nested `{data: [...]}` body and
calls `.get` on the inner list). -/
def pyGet (d : J) (k : String) (dflt : J) : Except String J :=
  match d with
  | .obj fs => .ok ((jLookup fs k).getD dflt)
  | _ => .error "AttributeError"

/-- Python subscript `d[k]` with a string key: `KeyError` when the key
is absent, `TypeError` when `d` is not a dict. -/
def pyIndex (d : J) (k : String) : Except String J :=
  match d with
  | .obj fs =>
      match jLookup fs k with
      | some v => .ok v
      | none => .error "KeyError"
  | _ => .error "TypeError"

/-- Matching of a needle at the head of a haystack (character lists). -/
def charsMatch : List Char → List Char → Bool
  | _, [] => true
  | [], _ :: _ => false
  | c :: cs, d :: ds => c == d && charsMatch cs ds

/-- Containment of a needle anywhere in a haystack (character lists). -/
def listContains : List Char → List Char → Bool
  | [], needle => charsMatch [] needle
  | c :: t, needle => charsMatch (c :: t) needle || listContains t needle

/-- Literal, case-sensitive substring test: models Python
`needle in hay` on strings.  Also the spec-side reading of the
ExactSubstring citation criterion. -/
def strContains (hay needle : String) : Bool :=
  listContains hay.data needle.data

/-- Python truthiness of a JSON value (`if not data: ...`). -/
def pyTruthy : J → Bool
  | .null => false
  | .bool b => b
  | .num n => n != 0
  | .str s => s.length != 0
  | .arr xs => !xs.isEmpty
  | .obj fs => !fs.isEmpty

/-- Python `k in d` for a string `k`: key test on dicts, membership on
lists (string equality against each element; `==` against a non-string
is `False`), substring test on strings, `TypeError` otherwise. -/
def pyIn (k : String) (d : J) : Except String Bool :=
  match d with
  | .obj fs => .ok ((jLookup fs k).isSome)
  | .arr xs => .ok (xs.any (fun v => match v with | .str s => s == k | _ => false))
  | .str s => .ok (strContains s k)
  | _ => .error "TypeError"

/-- Python iteration `for x in v`: lists yield their elements, strings
their characters, dicts their keys; other values raise `TypeError`.
`process_data` iterates the extracted item collection and the
`source` value this way. -/
def iterify (v : J) : Except String (List J) :=
  match v with
  | .arr xs => .ok xs
  | .str s => .ok (s.data.map (fun c => .str (String.mk [c])))
  | .obj fs => .ok (fs.map (fun kv => .str kv.1))
  | _ => .error "TypeError"

/-- The citation object built by `extract_citations` for one source:
`{"id": source["id"], "context": source["context"],
"link": source.get("link", "")}`. -/
def projFn (s : J) : J :=
  .obj [("id", jGet s "id" .null), ("context", jGet s "context" .null),
        ("link", jGet s "link" (.str ""))]

/-- Embedding of `extract_citations(sources)` (`Methods.py` lines
95-113; `Citationer.py` lines 66-84 is the verbatim same function).
Each source contributes one citation dict; a source without `id` or
`context` raises `KeyError`, aborting the whole call. -/
def extract_citations : List J → Except String (List J)
  | [] => .ok []
  | s :: rest => do
      let idv ← pyIndex s "id"
      let ctx ← pyIndex s "context"
      let restC ← extract_citations rest
      .ok (.obj [("id", idv), ("context", ctx), ("link", jGet s "link" (.str ""))] :: restC)

/-- The default similarity threshold of `match_sources`
(`threshold=0.75` in `Methods.py`). -/
def defaultThreshold : ℚ := 3 / 4

/-- Embedding of `match_sources(response, sources, tokenizer, model,
threshold)` (`Methods.py` lines 140-162).  The transformer score
`calculate_semantic_similarity(response, context, ...)` is the abstract
parameter `sim`; a source is appended exactly when its score meets the
threshold (`similarity >= threshold`). -/
def match_sources (response : J) : List J → (J → J → ℚ) → ℚ → Except String (List J)
  | [], _, _ => .ok []
  | s :: rest, sim, t => do
      let ctx ← pyIndex s "context"
      let restM ← match_sources response rest sim t
      .ok (if t ≤ sim response ctx then s :: restM else restM)

/-- The diagnostic printed for a skipped item
(`print(f"Skipping unexpected item format: ...")`). -/
def skipMsg : String := "Skipping unexpected item format"

/-- The output record built by `Methods.process_data` for one item. -/
def mkRecord (response : J) (citations matched : List J) : J :=
  .obj [("response", response), ("sources", .arr citations),
        ("matched_sources", .arr matched)]

/-- The per-item loop of `Methods.process_data` (lines 184-200):
non-dict items are skipped with a diagnostic; dict items yield a record
with `response`, `sources` (the extracted citations) and
`matched_sources`.  Returns the records together with the emitted
diagnostics. -/
def processItems (sim : J → J → ℚ) (t : ℚ) : List J → Except String (List J × List String)
  | [] => .ok ([], [])
  | item :: rest =>
      match item with
      | .obj fields => do
          let response := jGet (.obj fields) "response" (.str "")
          let sources ← iterify (jGet (.obj fields) "source" (.arr []))
          let citations ← extract_citations sources
          let matched ← match_sources response sources sim t
          let restOut ← processItems sim t rest
          .ok (mkRecord response citations matched :: restOut.1, restOut.2)
      | _ => do
          let restOut ← processItems sim t rest
          .ok (restOut.1, skipMsg :: restOut.2)

/-- Item extraction of `Methods.process_data` (lines 179-182):
a bare list is used as-is, otherwise
`data.get("data", {}).get("data", [])` runs — which raises
`AttributeError` when `data["data"]` is itself a list (the singly
nested shape). -/
def getItemsM (data : J) : Except String (List J) :=
  match data with
  | .arr xs => .ok xs
  | _ => do
      let d1 ← pyGet data "data" (.obj [])
      let d2 ← pyGet d1 "data" (.arr [])
      iterify d2

/-- Embedding of `Methods.process_data(data, tokenizer, model)`
(lines 165-200). -/
def process_data_M (data : J) (sim : J → J → ℚ) (t : ℚ) :
    Except String (List J × List String) := do
  let items ← getItemsM data
  processItems sim t items

/-- The output record built by `Citationer.process_data` for one item
(no `matched_sources` field). -/
def mkRecordC (response : J) (citations : List J) : J :=
  .obj [("response", response), ("sources", .arr citations)]

/-- The per-item loop of `Citationer.process_data` (lines 100-108):
identical to the `Methods` variant except that no matching at all is
performed — every extracted citation is kept. -/
def processItemsC : List J → Except String (List J × List String)
  | [] => .ok ([], [])
  | item :: rest =>
      match item with
      | .obj fields => do
          let response := jGet (.obj fields) "response" (.str "")
          let sources ← iterify (jGet (.obj fields) "source" (.arr []))
          let citations ← extract_citations sources
          let restOut ← processItemsC rest
          .ok (mkRecordC response citations :: restOut.1, restOut.2)
      | _ => do
          let restOut ← processItemsC rest
          .ok (restOut.1, skipMsg :: restOut.2)

/-- Item extraction of `Citationer.process_data` (line 99):
`data.get("data", {}).get("data", [])` with no bare-list case. -/
def getItemsC (data : J) : Except String (List J) := do
  let d1 ← pyGet data "data" (.obj [])
  let d2 ← pyGet d1 "data" (.arr [])
  iterify d2

/-- Embedding of `Citationer.process_data(data)` (lines 87-109). -/
def process_data_C (data : J) : Except String (List J × List String) := do
  let items ← getItemsC data
  processItemsC items

/-- Well-formedness of a source object: a dict carrying `id` and
`context` (the shape `extract_citations` and `match_sources` require
to succeed). -/
def wfSourceB (s : J) : Bool :=
  match s with
  | .obj fs => (jLookup fs "id").isSome && (jLookup fs "context").isSome
  | _ => false

/-- A source object that at least carries `context` (all
`match_sources` needs). -/
def hasContextB (s : J) : Bool :=
  match s with
  | .obj fs => (jLookup fs "context").isSome
  | _ => false

/-- Well-formedness of an item: a dict whose `source` field, when
present, is a list of well-formed sources. -/
def wfItemB (item : J) : Bool :=
  match item with
  | .obj fs =>
      match jLookup fs "source" with
      | none => true
      | some (.arr ss) => ss.all wfSourceB
      | some _ => false
  | _ => false

/-- Whether a JSON value is a dict (`isinstance(item, dict)`). -/
def isObjB : J → Bool
  | .obj _ => true
  | _ => false

/-- The source list `process_data` iterates for an item:
`item.get("source", [])`, for well-formed items always a list. -/
def srcsOf (item : J) : List J :=
  match jGet item "source" (.arr []) with
  | .arr xs => xs
  | _ => []

/-- The record `Methods.process_data` produces for a well-formed item:
all sources projected into `sources`, and exactly the
threshold-passing sources in `matched_sources`. -/
def recOf (sim : J → J → ℚ) (t : ℚ) (item : J) : J :=
  mkRecord (jGet item "response" (.str ""))
    ((srcsOf item).map projFn)
    ((srcsOf item).filter
      (fun s => decide (t ≤ sim (jGet item "response" (.str "")) (jGet s "context" .null))))

/-- Singly nested success body `{data: [items]}`. -/
def singlyNested (items : List J) : J := .obj [("data", .arr items)]

/-- Doubly nested success body `{data: {data: [items]}}`. -/
def doublyNested (items : List J) : J :=
  .obj [("data", .obj [("data", .arr items)])]

/-- The progress file content written by `save_progress(progress_file,
last_page)`: `{"last_page": last_page}`. -/
def progressJson (k : Int) : J := .obj [("last_page", .num k)]

/-- Embedding of `load_progress(progress_file)` (`Citationer.py` lines
136-150, `Methods.py` lines 203-217): the file system is an
`Option J` (the progress file's parsed content, `none` when absent).
Missing file yields `1`; otherwise `progress.get("last_page", 1)`
(which raises `AttributeError` on a non-dict file). -/
def loadProgress : Option J → Except String J
  | none => .ok (.num 1)
  | some p => pyGet p "last_page" (.num 1)

/-- The initial page counter of a fresh run,
`page = load_progress(PROGRESS_FILE)` followed by its first use as an
integer (a non-integer progress value would raise on the comparison
with the page ceiling). -/
def initPage (f : Option J) : Except String Int := do
  let v ← loadProgress f
  match v with
  | .num n => .ok n
  | _ => .error "TypeError"

/-- The file system visible to the sweep: the written page files
(`Page_<k>.json`, most recent write first) and the progress file. -/
structure FS where
  pages : List (Int × J)
  progress : Option J

/-- Program-phase marker inside one iteration of the sweep loop,
following the statement order of `Citationer.py` lines 165-196. -/
inductive Phase where
  | loopHead
  | gotBody (b : J)
  | processed (recs : List J)
  | fileSaved
  | cursorSaved
  | loopExited
  | done
  | crashedHalt

/-- A sweep machine state: current page counter, program phase, file
system. -/
structure MState where
  page : Int
  phase : Phase
  fs : FS

/-- Sweep parameters distinguishing the two `__main__` loops:
the loop-break test on a fetched body, the processing function, and
the optional page ceiling (`MAX_PAGE_LIMIT = 60` in `Citationer.py`,
absent in `Fetcher.py`). -/
structure SweepCfg where
  brk : J → Except String Bool
  proc : J → Except String (List J × List String)
  ceiling : Option Int

/-- The page counter is within the configured ceiling (always true
when there is none). -/
def inBound (cfg : SweepCfg) (page : Int) : Prop :=
  ∀ c, cfg.ceiling = some c → page ≤ c

/-- File write performed by `save_to_json(citations_result, page,
directory)`: the page file now exists with the given content. -/
def writePage (fs : FS) (page : Int) (recs : List J) : FS :=
  { fs with pages := (page, .arr recs) :: fs.pages }

/-- File write performed by `save_progress(PROGRESS_FILE, page)`. -/
def setProgress (fs : FS) (page : Int) : FS :=
  { fs with progress := some (progressJson page) }

/-- Effect of the post-loop cleanup `os.remove(PROGRESS_FILE)` guarded
by `os.path.exists` (removes the file when present; absent stays
absent). -/
def clearProgress (fs : FS) : FS :=
  { fs with progress := none }

/-- Small-step transition relation of the sweep loop (`Citationer.py`
lines 165-196; `Fetcher.py` lines 25-56 is the same loop with a
different break test and no ceiling).  Fetch outcomes are
nondeterministic: `fetchOk` is a successful `fetch_page`, `fetchFatal`
covers exhausted retries (tenacity re-raises after 10 attempts) and any
other uncaught exception during fetch.  `kill` models process
termination (crash) at any point before the run has halted.  The
`except TooManyRequestsError` branch of the loop is unreachable (the
`retry` decorator converts an exhausted 429 into a `RetryError`) and
would in any case be a stutter step, so it is omitted. -/
inductive Step (cfg : SweepCfg) : MState → MState → Prop where
  | exitCeiling (page : Int) (fs : FS) (c : Int) :
      cfg.ceiling = some c → page > c →
      Step cfg ⟨page, .loopHead, fs⟩ ⟨page, .loopExited, fs⟩
  | fetchOk (page : Int) (fs : FS) (b : J) :
      inBound cfg page →
      Step cfg ⟨page, .loopHead, fs⟩ ⟨page, .gotBody b, fs⟩
  | fetchFatal (page : Int) (fs : FS) :
      inBound cfg page →
      Step cfg ⟨page, .loopHead, fs⟩ ⟨page, .crashedHalt, fs⟩
  | emptyBreak (page : Int) (fs : FS) (b : J) :
      cfg.brk b = .ok true →
      Step cfg ⟨page, .gotBody b, fs⟩ ⟨page, .loopExited, fs⟩
  | brkCrash (page : Int) (fs : FS) (b : J) (e : String) :
      cfg.brk b = .error e →
      Step cfg ⟨page, .gotBody b, fs⟩ ⟨page, .crashedHalt, fs⟩
  | processOk (page : Int) (fs : FS) (b : J) (recs : List J) (diags : List String) :
      cfg.brk b = .ok false → cfg.proc b = .ok (recs, diags) →
      Step cfg ⟨page, .gotBody b, fs⟩ ⟨page, .processed recs, fs⟩
  | processCrash (page : Int) (fs : FS) (b : J) (e : String) :
      cfg.brk b = .ok false → cfg.proc b = .error e →
      Step cfg ⟨page, .gotBody b, fs⟩ ⟨page, .crashedHalt, fs⟩
  | writeFile (page : Int) (fs : FS) (recs : List J) :
      Step cfg ⟨page, .processed recs, fs⟩ ⟨page, .fileSaved, writePage fs page recs⟩
  | saveCursor (page : Int) (fs : FS) :
      Step cfg ⟨page, .fileSaved, fs⟩ ⟨page, .cursorSaved, setProgress fs page⟩
  | advance (page : Int) (fs : FS) :
      Step cfg ⟨page, .cursorSaved, fs⟩ ⟨page + 1, .loopHead, fs⟩
  | deleteProg (page : Int) (fs : FS) :
      Step cfg ⟨page, .loopExited, fs⟩ ⟨page, .done, clearProgress fs⟩
  | kill (s : MState) :
      s.phase ≠ .done → s.phase ≠ .crashedHalt →
      Step cfg s ⟨s.page, .crashedHalt, s.fs⟩

/-- Break test of the `Citationer.py` loop:
`if not data or "data" not in data: break`. -/
def breakTestC (data : J) : Except String Bool :=
  if pyTruthy data = false then .ok true
  else do
    let c ← pyIn "data" data
    .ok (!c)

/-- Break test of the `Fetcher.py` loop: `if not data or "data" not in
data or not data["data"]["data"]: break`. -/
def breakTestF (data : J) : Except String Bool :=
  if pyTruthy data = false then .ok true
  else do
    let c ← pyIn "data" data
    if c = false then .ok true
    else do
      let d1 ← pyIndex data "data"
      let d2 ← pyIndex d1 "data"
      .ok (!pyTruthy d2)

/-- The sweep of `Citationer.py`: its break test, its processing
function, ceiling 60. -/
def citationerCfg : SweepCfg := ⟨breakTestC, process_data_C, some 60⟩

/-- The sweep of `Fetcher.py`: its break test, `Methods.process_data`,
no ceiling. -/
def fetcherCfg (sim : J → J → ℚ) (t : ℚ) : SweepCfg :=
  ⟨breakTestF, fun b => process_data_M b sim t, none⟩

/-- The cursor-safety invariant: whenever the progress file records
page `k`, the page file for `k` has actually been written. -/
def cursorInv (fs : FS) : Prop :=
  ∀ k, fs.progress = some (progressJson k) → ∃ v, (k, v) ∈ fs.pages

/-- The record `Citationer.process_data` produces for a well-formed
item: every source projected into `sources`, no matching. -/
def recOfC (item : J) : J :=
  mkRecordC (jGet item "response" (.str "")) ((srcsOf item).map projFn)

/-- A response item as served by the upstream API. -/
def itemOf (resp : String) (srcs : List J) : J :=
  .obj [("response", .str resp), ("source", .arr srcs)]

/-- A source object with an id, a context and an empty link. -/
def srcOf (idv : J) (ctx : String) : J :=
  .obj [("id", idv), ("context", .str ctx), ("link", .str "")]

/-- A well-formed demonstration item: response text `"r"`, one source
with context `"c"`. -/
def demoItem : J := itemOf "r" [srcOf (.num 1) "c"]

/-- A dict item whose single source lacks the required `id` key. -/
def badDict : J :=
  .obj [("response", .str "x"), ("source", .arr [.obj [("context", .str "c")]])]

/-- Initial machine state of a first run: page 1, no files. -/
def demoInit : MState := ⟨1, .loopHead, ⟨[], none⟩⟩

/-- A non-empty fetched body carrying no items. -/
def demoBody : J := doublyNested []

/-- The state reached from `demoInit` after fetching, processing and
persisting page 1, the cursor just saved. -/
def demoMid : MState :=
  ⟨1, .cursorSaved, ⟨[(1, .arr [])], some (progressJson 1)⟩⟩

/-- Initial machine state of a resumed run that still has a progress
file recording page 3. -/
def demoInit2 : MState := ⟨3, .loopHead, ⟨[], some (progressJson 3)⟩⟩

/-- The state after that resumed run hits an empty body and completes
normally: the progress file is gone. -/
def demoDone : MState := ⟨3, .done, ⟨[], none⟩⟩

/-- Claim C1 as stated: a source is cited by the `Citationer` pipeline
iff its context is a literal, case-sensitive substring of the response
text. -/
def claimC1Prop : Prop :=
  ∀ (resp ctx : String) (idv : J) (out : List J × List String),
    process_data_C (doublyNested [itemOf resp [srcOf idv ctx]]) = .ok out →
    ((∃ rec ∈ out.1, ∃ cs, rec = mkRecordC (.str resp) cs ∧
        ∃ c ∈ cs, jGet c "context" .null = .str ctx) ↔
      strContains resp ctx = true)

/-- Claim C4 as stated: once the cursor for a completed page is durably
saved, a fresh run resumes fetching at the following page. -/
def claimC4Prop : Prop :=
  ∀ (cfg : SweepCfg) (init s : MState),
    init.phase = .loopHead → Relation.ReflTransGen (Step cfg) init s →
    s.phase = .cursorSaved → initPage s.fs.progress = .ok (s.page + 1)

/-- Claim C5 as stated: all three upstream body shapes (bare array,
singly nested, doubly nested) are extracted successfully, one record
per well-formed item. -/
def claimC5Prop : Prop :=
  ∀ (sim : J → J → ℚ) (t : ℚ) (items : List J), items.all wfItemB = true →
    (∃ out1 : List J × List String,
        process_data_M (.arr items) sim t = .ok out1 ∧ out1.1.length = items.length) ∧
    (∃ out2 : List J × List String,
        process_data_M (singlyNested items) sim t = .ok out2 ∧ out2.1.length = items.length) ∧
    (∃ out3 : List J × List String,
        process_data_M (doublyNested items) sim t = .ok out3 ∧ out3.1.length = items.length)

/-- Claim C6 as stated: a page with one malformed item and two
well-formed items always yields exactly two records and one
diagnostic; a malformed item never aborts the page. -/
def claimC6Prop : Prop :=
  ∀ (sim : J → J → ℚ) (t : ℚ) (a m b : J),
    wfItemB a = true → wfItemB b = true → wfItemB m = false →
    ∃ out : List J × List String,
      processItems sim t [a, m, b] = .ok out ∧
      out.1.length = 2 ∧ out.2.length = 1

theorem ok_bind {α β : Type} (a : α) (f : α → Except String β) :
    (Except.ok a >>= f) = f a := rfl

theorem error_bind {α β : Type} (e : String) (f : α → Except String β) :
    ((Except.error e : Except String α) >>= f) = Except.error e := rfl

theorem pyIndex_ok_jGet {s : J} {k : String} {v dflt : J}
    (h : pyIndex s k = .ok v) : jGet s k dflt = v := by
  cases s <;> simp [pyIndex] at h
  case obj fs =>
    cases hl : jLookup fs k with
    | none => rw [hl] at h; exact absurd h (by simp)
    | some w => rw [hl] at h; simp at h; simp [jGet, hl, h]

theorem wfSourceB_id {s : J} (h : wfSourceB s = true) :
    pyIndex s "id" = .ok (jGet s "id" .null) := by
  cases s <;> simp [wfSourceB] at h
  case obj fs =>
    obtain ⟨v, hv⟩ := Option.isSome_iff_exists.mp h.1
    simp [pyIndex, jGet, hv]

theorem wfSourceB_context {s : J} (h : wfSourceB s = true) :
    pyIndex s "context" = .ok (jGet s "context" .null) := by
  cases s <;> simp [wfSourceB] at h
  case obj fs =>
    obtain ⟨v, hv⟩ := Option.isSome_iff_exists.mp h.2
    simp [pyIndex, jGet, hv]

theorem wfSourceB_hasContext {s : J} (h : wfSourceB s = true) :
    hasContextB s = true := by
  cases s <;> simp [wfSourceB] at h
  case obj fs => simp [hasContextB, h.2]

theorem hasContextB_context {s : J} (h : hasContextB s = true) :
    pyIndex s "context" = .ok (jGet s "context" .null) := by
  cases s <;> simp [hasContextB] at h
  case obj fs =>
    obtain ⟨v, hv⟩ := Option.isSome_iff_exists.mp h
    simp [pyIndex, jGet, hv]

theorem extract_citations_wf :
    ∀ (srcs : List J), (∀ s ∈ srcs, wfSourceB s = true) →
      extract_citations srcs = .ok (srcs.map projFn)
  | [], _ => rfl
  | s :: rest, h => by
      have hs := h s (List.mem_cons_self s rest)
      have hrest := extract_citations_wf rest (fun x hx => h x (List.mem_cons_of_mem s hx))
      simp only [extract_citations]
      rw [wfSourceB_id hs, ok_bind, wfSourceB_context hs, ok_bind, hrest, ok_bind]
      rfl

theorem extract_citations_mem :
    ∀ {srcs cits : List J}, extract_citations srcs = .ok cits →
      ∀ c ∈ cits, ∃ s ∈ srcs, c = projFn s := by
  intro srcs
  induction srcs with
  | nil =>
      intro cits h c hc
      simp only [extract_citations] at h
      cases h
      simp at hc
  | cons s rest ih =>
      intro cits h c hc
      simp only [extract_citations] at h
      cases hid : pyIndex s "id" with
      | error e => rw [hid, error_bind] at h; cases h
      | ok idv =>
        rw [hid, ok_bind] at h
        cases hctx : pyIndex s "context" with
        | error e => rw [hctx, error_bind] at h; cases h
        | ok ctx =>
          rw [hctx, ok_bind] at h
          cases hrest : extract_citations rest with
          | error e => rw [hrest, error_bind] at h; cases h
          | ok restC =>
            rw [hrest, ok_bind] at h
            cases h
            rcases List.mem_cons.mp hc with hhead | htail
            · refine ⟨s, List.mem_cons_self s rest, ?_⟩
              rw [hhead]
              simp [projFn, pyIndex_ok_jGet hid, pyIndex_ok_jGet hctx]
            · obtain ⟨x, hx, hxe⟩ := ih hrest c htail
              exact ⟨x, List.mem_cons_of_mem s hx, hxe⟩

theorem match_sources_wf (r : J) (sim : J → J → ℚ) (t : ℚ) :
    ∀ (srcs : List J), (∀ s ∈ srcs, hasContextB s = true) →
      match_sources r srcs sim t =
        .ok (srcs.filter (fun s => decide (t ≤ sim r (jGet s "context" .null))))
  | [], _ => rfl
  | s :: rest, h => by
      have hs := h s (List.mem_cons_self s rest)
      have hrest := match_sources_wf r sim t rest
        (fun x hx => h x (List.mem_cons_of_mem s hx))
      simp only [match_sources]
      rw [hasContextB_context hs, ok_bind, hrest, ok_bind, List.filter_cons]
      by_cases hle : t ≤ sim r (jGet s "context" .null)
      · rw [if_pos hle]
        simp [hle]
      · rw [if_neg hle]
        simp [hle]

theorem match_sources_sub {r : J} {sim : J → J → ℚ} {t : ℚ} :
    ∀ {srcs ms : List J}, match_sources r srcs sim t = .ok ms →
      ∀ x ∈ ms, x ∈ srcs := by
  intro srcs
  induction srcs with
  | nil =>
      intro ms h x hx
      simp only [match_sources] at h
      cases h
      simp at hx
  | cons s rest ih =>
      intro ms h x hx
      simp only [match_sources] at h
      cases hctx : pyIndex s "context" with
      | error e => rw [hctx, error_bind] at h; cases h
      | ok ctx =>
        rw [hctx, ok_bind] at h
        cases hrest : match_sources r rest sim t with
        | error e => rw [hrest, error_bind] at h; cases h
        | ok restM =>
          rw [hrest, ok_bind] at h
          cases h
          by_cases hle : t ≤ sim r ctx
          · rw [if_pos hle] at hx
            rcases List.mem_cons.mp hx with hh | ht
            · rw [hh]; exact List.mem_cons_self s rest
            · exact List.mem_cons_of_mem s (ih hrest x ht)
          · rw [if_neg hle] at hx
            exact List.mem_cons_of_mem s (ih hrest x hx)

theorem wfItemB_obj {item : J} (h : wfItemB item = true) :
    ∃ fields, item = .obj fields := by
  cases item <;> simp [wfItemB] at h
  case obj fields => exact ⟨fields, rfl⟩

theorem wfItemB_srcs {item : J} (h : wfItemB item = true) :
    jGet item "source" (.arr []) = .arr (srcsOf item) ∧
      ∀ s ∈ srcsOf item, wfSourceB s = true := by
  obtain ⟨fields, rfl⟩ := wfItemB_obj h
  simp only [wfItemB] at h
  cases hl : jLookup fields "source" with
  | none =>
      rw [hl] at h
      constructor
      · simp [jGet, srcsOf, hl]
      · intro s hs
        simp [srcsOf, jGet, hl] at hs
  | some v =>
      rw [hl] at h
      cases v <;> simp at h
      case arr ss =>
        constructor
        · simp [jGet, srcsOf, hl]
        · intro s hs
          simp [srcsOf, jGet, hl] at hs
          exact h s hs

theorem processItems_cons_wf (sim : J → J → ℚ) (t : ℚ) {item : J}
    (rest : List J) (h : wfItemB item = true) {out : List J × List String}
    (hrest : processItems sim t rest = .ok out) :
    processItems sim t (item :: rest) = .ok (recOf sim t item :: out.1, out.2) := by
  obtain ⟨fields, rfl⟩ := wfItemB_obj h
  obtain ⟨hsrc, hwf⟩ := wfItemB_srcs h
  simp only [processItems]
  rw [hsrc, show iterify (.arr (srcsOf (J.obj fields))) = .ok (srcsOf (J.obj fields)) from rfl,
    ok_bind, extract_citations_wf _ hwf, ok_bind,
    match_sources_wf _ sim t _ (fun s hs => wfSourceB_hasContext (hwf s hs)), ok_bind,
    hrest, ok_bind]
  rfl

theorem processItems_cons_skip (sim : J → J → ℚ) (t : ℚ) {item : J}
    (rest : List J) (h : isObjB item = false) {out : List J × List String}
    (hrest : processItems sim t rest = .ok out) :
    processItems sim t (item :: rest) = .ok (out.1, skipMsg :: out.2) := by
  cases item <;> simp [isObjB] at h ⊢ <;>
    simp only [processItems] <;> rw [hrest, ok_bind]

theorem processItems_wf (sim : J → J → ℚ) (t : ℚ) :
    ∀ (items : List J), (∀ item ∈ items, wfItemB item = true) →
      processItems sim t items = .ok (items.map (recOf sim t), [])
  | [], _ => rfl
  | item :: rest, h => by
      have hrest := processItems_wf sim t rest
        (fun x hx => h x (List.mem_cons_of_mem item hx))
      rw [processItems_cons_wf sim t rest (h item (List.mem_cons_self item rest)) hrest]
      rfl

theorem processItemsC_cons_wf {item : J} (rest : List J)
    (h : wfItemB item = true) {out : List J × List String}
    (hrest : processItemsC rest = .ok out) :
    processItemsC (item :: rest) = .ok (recOfC item :: out.1, out.2) := by
  obtain ⟨fields, rfl⟩ := wfItemB_obj h
  obtain ⟨hsrc, hwf⟩ := wfItemB_srcs h
  simp only [processItemsC]
  rw [hsrc, show iterify (.arr (srcsOf (J.obj fields))) = .ok (srcsOf (J.obj fields)) from rfl,
    ok_bind, extract_citations_wf _ hwf, ok_bind, hrest, ok_bind]
  rfl

theorem getItemsM_arr (items : List J) : getItemsM (.arr items) = .ok items := rfl

theorem getItemsM_doubly (items : List J) :
    getItemsM (doublyNested items) = .ok items := rfl

theorem getItemsM_singly (items : List J) :
    getItemsM (singlyNested items) = .error "AttributeError" := rfl

theorem getItemsC_doubly (items : List J) :
    getItemsC (doublyNested items) = .ok items := rfl

/-- C10: for every well-formed source list, `extract_citations`
produces exactly one citation per input source, in input order, each
the verbatim `id`/`context` projection of its source with a missing
`link` defaulting to `""` (`projFn`); the construction never consults
the response text (`extract_citations` does not even receive it), so
every source is included unconditionally. -/
theorem c10_citations_projection (srcs : List J)
    (h : ∀ s ∈ srcs, wfSourceB s = true) :
    extract_citations srcs = .ok (srcs.map projFn) ∧
      (srcs.map projFn).length = srcs.length :=
  ⟨extract_citations_wf srcs h, by simp⟩

theorem c10_witness :
    (∀ s ∈ [srcOf (.num 7) "ctx", .obj [("id", .num 8), ("context", .str "c2")]],
      wfSourceB s = true) ∧
    (extract_citations [srcOf (.num 7) "ctx", .obj [("id", .num 8), ("context", .str "c2")]] =
      .ok ([srcOf (.num 7) "ctx", .obj [("id", .num 8), ("context", .str "c2")]].map projFn) ∧
      ([srcOf (.num 7) "ctx", .obj [("id", .num 8), ("context", .str "c2")]].map projFn).length =
        [srcOf (.num 7) "ctx", .obj [("id", .num 8), ("context", .str "c2")]].length) :=
  ⟨by decide, c10_citations_projection _ (by decide)⟩

/-- C3: whenever `match_sources` succeeds (each source is a dict with a
`context`), a source is in `matched_sources` iff its similarity score
against the response meets the threshold — for every response, source
list and threshold, in particular the default `defaultThreshold`. -/
theorem c3_threshold_iff (r : J) (srcs : List J) (sim : J → J → ℚ) (t : ℚ)
    (ms : List J) (h : ∀ s ∈ srcs, hasContextB s = true)
    (hok : match_sources r srcs sim t = .ok ms) :
    ∀ s, s ∈ ms ↔ s ∈ srcs ∧ t ≤ sim r (jGet s "context" .null) := by
  rw [match_sources_wf r sim t srcs h] at hok
  cases hok
  intro s
  simp [List.mem_filter]

theorem c3_witness :
    (∀ s ∈ [srcOf (.num 1) "a", srcOf (.num 2) "b"], hasContextB s = true) ∧
    (match_sources (.str "resp") [srcOf (.num 1) "a", srcOf (.num 2) "b"]
        (fun _ c => match c with | .str s => if s = "a" then 1 else 0 | _ => 0) 1 =
      .ok [srcOf (.num 1) "a"]) ∧
    (srcOf (.num 1) "a" ∈ ([srcOf (.num 1) "a"] : List J) ↔
      srcOf (.num 1) "a" ∈ [srcOf (.num 1) "a", srcOf (.num 2) "b"] ∧
        (1:ℚ) ≤ (fun _ c => match c with | .str s => if s = "a" then 1 else 0 | _ => 0)
          (J.str "resp") (jGet (srcOf (.num 1) "a") "context" .null)) :=
  ⟨by decide, rfl,
   c3_threshold_iff (J.str "resp") [srcOf (.num 1) "a", srcOf (.num 2) "b"]
     (fun _ c => match c with | .str s => if s = "a" then 1 else 0 | _ => 0) 1
     [srcOf (.num 1) "a"] (by decide) rfl (srcOf (.num 1) "a")⟩

theorem match_sources_mono_sublist {r : J} {sim : J → J → ℚ} {t1 t2 : ℚ}
    (h12 : t1 ≤ t2) :
    ∀ (srcs : List J) {m1 m2 : List J},
      match_sources r srcs sim t1 = .ok m1 →
      match_sources r srcs sim t2 = .ok m2 → List.Sublist m2 m1 := by
  intro srcs
  induction srcs with
  | nil =>
      intro m1 m2 h1 h2
      simp only [match_sources] at h1 h2
      cases h1; cases h2
      exact List.Sublist.refl []
  | cons s rest ih =>
      intro m1 m2 h1 h2
      simp only [match_sources] at h1 h2
      cases hctx : pyIndex s "context" with
      | error e => rw [hctx, error_bind] at h1; cases h1
      | ok ctx =>
        rw [hctx, ok_bind] at h1 h2
        cases hr1 : match_sources r rest sim t1 with
        | error e => rw [hr1, error_bind] at h1; cases h1
        | ok r1 =>
          rw [hr1, ok_bind] at h1
          cases hr2 : match_sources r rest sim t2 with
          | error e => rw [hr2, error_bind] at h2; cases h2
          | ok r2 =>
            rw [hr2, ok_bind] at h2
            have hsub := ih hr1 hr2
            by_cases p2 : t2 ≤ sim r ctx
            · have p1 : t1 ≤ sim r ctx := le_trans h12 p2
              rw [if_pos p1] at h1; rw [if_pos p2] at h2
              cases h1; cases h2
              exact List.Sublist.cons₂ s hsub
            · rw [if_neg p2] at h2; cases h2
              by_cases p1 : t1 ≤ sim r ctx
              · rw [if_pos p1] at h1; cases h1
                exact List.Sublist.cons s hsub
              · rw [if_neg p1] at h1; cases h1
                exact hsub

/-- C9: for a fixed response, source list and similarity function,
raising the threshold can only shrink `matched_sources`: the matches at
the higher threshold are a sublist (hence a subset) of the matches at
the lower one, and their count is monotonically non-increasing. -/
theorem c9_threshold_monotone (r : J) (sim : J → J → ℚ) (t1 t2 : ℚ)
    (srcs m1 m2 : List J) (h12 : t1 ≤ t2)
    (h1 : match_sources r srcs sim t1 = .ok m1)
    (h2 : match_sources r srcs sim t2 = .ok m2) :
    List.Sublist m2 m1 ∧ m2.length ≤ m1.length :=
  have hs := match_sources_mono_sublist h12 srcs h1 h2
  ⟨hs, hs.length_le⟩

theorem c9_witness :
    ((0:ℚ) ≤ 1) ∧
    (match_sources (.str "resp") [srcOf (.num 1) "a", srcOf (.num 2) "b"]
        (fun _ c => match c with | .str s => if s = "a" then 1 else 0 | _ => 0) 0 =
      .ok [srcOf (.num 1) "a", srcOf (.num 2) "b"]) ∧
    (match_sources (.str "resp") [srcOf (.num 1) "a", srcOf (.num 2) "b"]
        (fun _ c => match c with | .str s => if s = "a" then 1 else 0 | _ => 0) 1 =
      .ok [srcOf (.num 1) "a"]) ∧
    (List.Sublist [srcOf (.num 1) "a"] [srcOf (.num 1) "a", srcOf (.num 2) "b"] ∧
      ([srcOf (.num 1) "a"] : List J).length ≤
        ([srcOf (.num 1) "a", srcOf (.num 2) "b"] : List J).length) :=
  ⟨by decide, rfl, rfl,
   c9_threshold_monotone (J.str "resp")
     (fun _ c => match c with | .str s => if s = "a" then 1 else 0 | _ => 0) 0 1
     [srcOf (.num 1) "a", srcOf (.num 2) "b"]
     [srcOf (.num 1) "a", srcOf (.num 2) "b"] [srcOf (.num 1) "a"]
     (by decide) rfl rfl⟩

/-- C2: every record `Methods.process_data` emits is built from one
input item: each entry of its `sources` (citations) list is the
projection of an entry of that item's source list, and each entry of
its `matched_sources` list is literally an entry of that source list —
both are subsets of the input sources. -/
theorem c2_record_subsets (sim : J → J → ℚ) (t : ℚ) :
    ∀ (items : List J) (recs : List J) (diags : List String),
      processItems sim t items = .ok (recs, diags) →
      ∀ rec ∈ recs, ∃ item, item ∈ items ∧
        ∃ srcs, iterify (jGet item "source" (.arr [])) = .ok srcs ∧
          ∃ r cs ms, rec = mkRecord r cs ms ∧
            (∀ c ∈ cs, ∃ s, s ∈ srcs ∧ c = projFn s) ∧
            (∀ x ∈ ms, x ∈ srcs) := by
  intro items
  induction items with
  | nil =>
      intro recs diags h rec hrec
      simp only [processItems] at h
      cases h
      simp at hrec
  | cons item rest ih =>
      intro recs diags h rec hrec
      cases item with
      | obj fields =>
          simp only [processItems] at h
          cases hsrc : iterify (jGet (J.obj fields) "source" (.arr [])) with
          | error e => rw [hsrc, error_bind] at h; cases h
          | ok srcs =>
            rw [hsrc, ok_bind] at h
            cases hcit : extract_citations srcs with
            | error e => rw [hcit, error_bind] at h; cases h
            | ok cs =>
              rw [hcit, ok_bind] at h
              cases hms : match_sources (jGet (J.obj fields) "response" (.str ""))
                  srcs sim t with
              | error e => rw [hms, error_bind] at h; cases h
              | ok ms =>
                rw [hms, ok_bind] at h
                cases hrest : processItems sim t rest with
                | error e => rw [hrest, error_bind] at h; cases h
                | ok out =>
                  rw [hrest, ok_bind] at h
                  cases h
                  rcases List.mem_cons.mp hrec with hh | ht
                  · refine ⟨J.obj fields, List.mem_cons_self _ _, srcs, hsrc,
                      jGet (J.obj fields) "response" (.str ""), cs, ms, hh, ?_, ?_⟩
                    · intro c hc
                      obtain ⟨s, hs, he⟩ := extract_citations_mem hcit c hc
                      exact ⟨s, hs, he⟩
                    · exact fun x hx => match_sources_sub hms x hx
                  · obtain ⟨it, hit, rest2⟩ := ih out.1 out.2 (by rw [hrest]) rec ht
                    exact ⟨it, List.mem_cons_of_mem _ hit, rest2⟩
      | null =>
          simp only [processItems] at h
          cases hrest : processItems sim t rest with
          | error e => rw [hrest, error_bind] at h; cases h
          | ok out =>
            rw [hrest, ok_bind] at h
            cases h
            obtain ⟨it, hit, rest2⟩ := ih out.1 out.2 (by rw [hrest]) rec hrec
            exact ⟨it, List.mem_cons_of_mem _ hit, rest2⟩
      | bool b =>
          simp only [processItems] at h
          cases hrest : processItems sim t rest with
          | error e => rw [hrest, error_bind] at h; cases h
          | ok out =>
            rw [hrest, ok_bind] at h
            cases h
            obtain ⟨it, hit, rest2⟩ := ih out.1 out.2 (by rw [hrest]) rec hrec
            exact ⟨it, List.mem_cons_of_mem _ hit, rest2⟩
      | num n =>
          simp only [processItems] at h
          cases hrest : processItems sim t rest with
          | error e => rw [hrest, error_bind] at h; cases h
          | ok out =>
            rw [hrest, ok_bind] at h
            cases h
            obtain ⟨it, hit, rest2⟩ := ih out.1 out.2 (by rw [hrest]) rec hrec
            exact ⟨it, List.mem_cons_of_mem _ hit, rest2⟩
      | str s =>
          simp only [processItems] at h
          cases hrest : processItems sim t rest with
          | error e => rw [hrest, error_bind] at h; cases h
          | ok out =>
            rw [hrest, ok_bind] at h
            cases h
            obtain ⟨it, hit, rest2⟩ := ih out.1 out.2 (by rw [hrest]) rec hrec
            exact ⟨it, List.mem_cons_of_mem _ hit, rest2⟩
      | arr xs =>
          simp only [processItems] at h
          cases hrest : processItems sim t rest with
          | error e => rw [hrest, error_bind] at h; cases h
          | ok out =>
            rw [hrest, ok_bind] at h
            cases h
            obtain ⟨it, hit, rest2⟩ := ih out.1 out.2 (by rw [hrest]) rec hrec
            exact ⟨it, List.mem_cons_of_mem _ hit, rest2⟩

theorem c2_witness :
    (processItems (fun _ _ => (1:ℚ)) 0 [demoItem] =
      .ok ([recOf (fun _ _ => (1:ℚ)) 0 demoItem], [])) ∧
    (∀ rec ∈ [recOf (fun _ _ => (1:ℚ)) 0 demoItem], ∃ item, item ∈ [demoItem] ∧
      ∃ srcs, iterify (jGet item "source" (.arr [])) = .ok srcs ∧
        ∃ r cs ms, rec = mkRecord r cs ms ∧
          (∀ c ∈ cs, ∃ s, s ∈ srcs ∧ c = projFn s) ∧
          (∀ x ∈ ms, x ∈ srcs)) :=
  ⟨rfl, c2_record_subsets (fun _ _ => (1:ℚ)) 0 [demoItem]
    [recOf (fun _ _ => (1:ℚ)) 0 demoItem] [] rfl⟩

/-- C7: the progress file is deleted exactly on normal sweep
termination.  Quantified over every pair of reachable sweep states
`a`, `b` with `a` not yet `done` — so `a` may be the start of the run
or any mid-sweep point, in particular the point right after a cursor
is first created by `save_progress`.  Once the run reaches `done`
(only via the post-loop cleanup after an empty page or a passed
ceiling) the progress file is gone; in every other later state —
including `crashedHalt`, which covers exhausted retries and arbitrary
crashes — a cursor present at `a` is still present: deletion never
runs mid-sweep, even for a cursor created during the current run. -/
theorem c7_progress_deletion (cfg : SweepCfg) (a b : MState)
    (hnd : a.phase ≠ .done)
    (hreach : Relation.ReflTransGen (Step cfg) a b) :
    (b.phase = .done → b.fs.progress = none) ∧
    (b.phase ≠ .done → a.fs.progress.isSome = true → b.fs.progress.isSome = true) := by
  induction hreach with
  | refl =>
      constructor
      · intro hd; exact absurd hd hnd
      · intro _ h; exact h
  | tail hsteps hstep ih =>
      cases hstep with
      | exitCeiling page fs c hceil hgt =>
          exact ⟨fun hd => by simp at hd, fun _ hsome => ih.2 (by simp) hsome⟩
      | fetchOk page fs b hin =>
          exact ⟨fun hd => by simp at hd, fun _ hsome => ih.2 (by simp) hsome⟩
      | fetchFatal page fs hin =>
          exact ⟨fun hd => by simp at hd, fun _ hsome => ih.2 (by simp) hsome⟩
      | emptyBreak page fs b hbrk =>
          exact ⟨fun hd => by simp at hd, fun _ hsome => ih.2 (by simp) hsome⟩
      | brkCrash page fs b e hbrk =>
          exact ⟨fun hd => by simp at hd, fun _ hsome => ih.2 (by simp) hsome⟩
      | processOk page fs b recs diags h1 h2 =>
          exact ⟨fun hd => by simp at hd, fun _ hsome => ih.2 (by simp) hsome⟩
      | processCrash page fs b e h1 h2 =>
          exact ⟨fun hd => by simp at hd, fun _ hsome => ih.2 (by simp) hsome⟩
      | writeFile page fs recs =>
          exact ⟨fun hd => by simp at hd, fun _ hsome => ih.2 (by simp) hsome⟩
      | saveCursor page fs =>
          exact ⟨fun hd => by simp at hd, fun _ _ => rfl⟩
      | advance page fs =>
          exact ⟨fun hd => by simp at hd, fun _ hsome => ih.2 (by simp) hsome⟩
      | deleteProg page fs =>
          exact ⟨fun _ => rfl, fun hnd _ => absurd rfl hnd⟩
      | kill s2 h1 h2 =>
          exact ⟨fun hd => by simp at hd, fun _ hsome => ih.2 h1 hsome⟩

/-- C8: at every point during a sweep that starts at the loop head in
a state satisfying the cursor-safety invariant, the invariant still
holds: the progress cursor never records a page whose page file has
not been written, because `save_to_json` runs before `save_progress`
within each iteration. -/
theorem c8_cursor_never_ahead (cfg : SweepCfg) (init s : MState)
    (hinit : init.phase = .loopHead) (hinv : cursorInv init.fs)
    (hreach : Relation.ReflTransGen (Step cfg) init s) : cursorInv s.fs := by
  suffices h : cursorInv s.fs ∧
      (s.phase = .fileSaved → ∃ v, (s.page, v) ∈ s.fs.pages) from h.1
  induction hreach with
  | refl =>
      refine ⟨hinv, fun hf => ?_⟩
      rw [hinit] at hf; cases hf
  | tail hsteps hstep ih =>
      cases hstep with
      | exitCeiling page fs c hceil hgt =>
          exact ⟨ih.1, fun hf => by simp at hf⟩
      | fetchOk page fs b hin =>
          exact ⟨ih.1, fun hf => by simp at hf⟩
      | fetchFatal page fs hin =>
          exact ⟨ih.1, fun hf => by simp at hf⟩
      | emptyBreak page fs b hbrk =>
          exact ⟨ih.1, fun hf => by simp at hf⟩
      | brkCrash page fs b e hbrk =>
          exact ⟨ih.1, fun hf => by simp at hf⟩
      | processOk page fs b recs diags h1 h2 =>
          exact ⟨ih.1, fun hf => by simp at hf⟩
      | processCrash page fs b e h1 h2 =>
          exact ⟨ih.1, fun hf => by simp at hf⟩
      | writeFile page fs recs =>
          constructor
          · intro k hk
            obtain ⟨v, hv⟩ := ih.1 k hk
            exact ⟨v, List.mem_cons_of_mem _ hv⟩
          · intro _
            exact ⟨.arr recs, List.mem_cons_self _ _⟩
      | saveCursor page fs =>
          constructor
          · intro k hk
            have h1 : progressJson page = progressJson k := by
              simpa [setProgress] using hk
            have hpk : page = k := by simpa [progressJson] using h1
            obtain ⟨v, hv⟩ := ih.2 rfl
            exact hpk ▸ ⟨v, hv⟩
          · intro hf; simp at hf
      | advance page fs =>
          exact ⟨ih.1, fun hf => by simp at hf⟩
      | deleteProg page fs =>
          constructor
          · intro k hk; simp [clearProgress] at hk
          · intro hf; simp at hf
      | kill s2 h1 h2 =>
          exact ⟨ih.1, fun hf => by simp at hf⟩

theorem initPage_progressJson (k : Int) :
    initPage (some (progressJson k)) = .ok k := rfl

/-- C4 (amended): when a run has just durably saved the cursor for the
completed page `s.page`, a fresh run started against that progress
file resumes at `s.page` itself — re-fetching the already-completed
page — not at `s.page + 1`. -/
theorem c4_resume_refetches_saved_page (cfg : SweepCfg) (init s : MState)
    (hinit : init.phase = .loopHead)
    (hreach : Relation.ReflTransGen (Step cfg) init s)
    (hcs : s.phase = .cursorSaved) : initPage s.fs.progress = .ok s.page := by
  suffices hp : s.phase = .cursorSaved → s.fs.progress = some (progressJson s.page) by
    rw [hp hcs]; exact initPage_progressJson s.page
  clear hcs
  induction hreach with
  | refl => intro hf; rw [hinit] at hf; cases hf
  | tail hsteps hstep ih =>
      cases hstep with
      | exitCeiling page fs c hceil hgt => intro hf; simp at hf
      | fetchOk page fs b hin => intro hf; simp at hf
      | fetchFatal page fs hin => intro hf; simp at hf
      | emptyBreak page fs b hbrk => intro hf; simp at hf
      | brkCrash page fs b e hbrk => intro hf; simp at hf
      | processOk page fs b recs diags h1 h2 => intro hf; simp at hf
      | processCrash page fs b e h1 h2 => intro hf; simp at hf
      | writeFile page fs recs => intro hf; simp at hf
      | saveCursor page fs => intro _; rfl
      | advance page fs => intro hf; simp at hf
      | deleteProg page fs => intro hf; simp at hf
      | kill s2 h1 h2 => intro hf; simp at hf

theorem demoStep1 :
    Step citationerCfg demoInit ⟨1, .gotBody demoBody, ⟨[], none⟩⟩ :=
  Step.fetchOk 1 ⟨[], none⟩ demoBody (by
    intro c hc
    rw [show citationerCfg.ceiling = some 60 from rfl] at hc
    injection hc with h
    omega)

theorem demoStep2 :
    Step citationerCfg ⟨1, .gotBody demoBody, ⟨[], none⟩⟩
      ⟨1, .processed [], ⟨[], none⟩⟩ :=
  Step.processOk 1 ⟨[], none⟩ demoBody [] [] rfl rfl

theorem demoStep3 :
    Step citationerCfg ⟨1, .processed [], ⟨[], none⟩⟩
      ⟨1, .fileSaved, ⟨[(1, .arr [])], none⟩⟩ :=
  Step.writeFile 1 ⟨[], none⟩ []

theorem demoStep4 :
    Step citationerCfg ⟨1, .fileSaved, ⟨[(1, .arr [])], none⟩⟩ demoMid :=
  Step.saveCursor 1 ⟨[(1, .arr [])], none⟩

theorem demoReach :
    Relation.ReflTransGen (Step citationerCfg) demoInit demoMid :=
  Relation.ReflTransGen.tail
    (Relation.ReflTransGen.tail
      (Relation.ReflTransGen.tail
        (Relation.ReflTransGen.tail Relation.ReflTransGen.refl demoStep1)
        demoStep2)
      demoStep3)
    demoStep4

theorem demo2Step1 :
    Step citationerCfg demoInit2 ⟨3, .gotBody (.obj []), ⟨[], some (progressJson 3)⟩⟩ :=
  Step.fetchOk 3 ⟨[], some (progressJson 3)⟩ (.obj []) (by
    intro c hc
    rw [show citationerCfg.ceiling = some 60 from rfl] at hc
    injection hc with h
    omega)

theorem demo2Step2 :
    Step citationerCfg ⟨3, .gotBody (.obj []), ⟨[], some (progressJson 3)⟩⟩
      ⟨3, .loopExited, ⟨[], some (progressJson 3)⟩⟩ :=
  Step.emptyBreak 3 ⟨[], some (progressJson 3)⟩ (.obj []) rfl

theorem demo2Step3 :
    Step citationerCfg ⟨3, .loopExited, ⟨[], some (progressJson 3)⟩⟩ demoDone :=
  Step.deleteProg 3 ⟨[], some (progressJson 3)⟩

theorem demo2Reach :
    Relation.ReflTransGen (Step citationerCfg) demoInit2 demoDone :=
  Relation.ReflTransGen.tail
    (Relation.ReflTransGen.tail
      (Relation.ReflTransGen.tail Relation.ReflTransGen.refl demo2Step1)
      demo2Step2)
    demo2Step3

/-- Refutation of C4 as stated: after completing page 1 and saving the
cursor, a fresh run computes starting page 1, not 2. -/
theorem c4_counterexample : ¬claimC4Prop := by
  intro h
  have h2 := h citationerCfg demoInit demoMid rfl demoReach rfl
  have h3 : (Except.ok (1:Int) : Except String Int) = Except.ok 2 := h2
  injection h3 with h4
  exact absurd h4 (by decide)

theorem c4_witness :
    (demoInit.phase = .loopHead) ∧ (demoMid.phase = .cursorSaved) ∧
      initPage demoMid.fs.progress = .ok demoMid.page :=
  ⟨rfl, rfl,
   c4_resume_refetches_saved_page citationerCfg demoInit demoMid rfl demoReach rfl⟩

theorem demoStep5 :
    Step citationerCfg demoMid ⟨1, .crashedHalt, demoMid.fs⟩ :=
  Step.kill demoMid (fun h => nomatch h) (fun h => nomatch h)

theorem demoCrashReach :
    Relation.ReflTransGen (Step citationerCfg) demoMid ⟨1, .crashedHalt, demoMid.fs⟩ :=
  Relation.ReflTransGen.tail Relation.ReflTransGen.refl demoStep5

theorem c7_witness :
    (demoMid.phase ≠ Phase.done) ∧ (demoMid.fs.progress.isSome = true) ∧
    (((⟨1, .crashedHalt, demoMid.fs⟩ : MState).phase = .done →
        (⟨1, .crashedHalt, demoMid.fs⟩ : MState).fs.progress = none) ∧
      ((⟨1, .crashedHalt, demoMid.fs⟩ : MState).phase ≠ .done →
        demoMid.fs.progress.isSome = true →
        (⟨1, .crashedHalt, demoMid.fs⟩ : MState).fs.progress.isSome = true)) ∧
    (demoInit2.phase ≠ Phase.done) ∧
    ((demoDone.phase = .done → demoDone.fs.progress = none) ∧
      (demoDone.phase ≠ .done → demoInit2.fs.progress.isSome = true →
        demoDone.fs.progress.isSome = true)) :=
  And.intro (fun h => nomatch h)
    (And.intro rfl
      (And.intro
        (c7_progress_deletion citationerCfg demoMid ⟨1, .crashedHalt, demoMid.fs⟩
          (fun h => nomatch h) demoCrashReach)
        (And.intro (fun h => nomatch h)
          (c7_progress_deletion citationerCfg demoInit2 demoDone
            (fun h => nomatch h) demo2Reach))))

theorem c8_witness :
    (demoInit.phase = .loopHead) ∧ cursorInv demoInit.fs ∧ cursorInv demoMid.fs :=
  ⟨rfl, fun _ hk => Option.noConfusion hk,
   c8_cursor_never_ahead citationerCfg demoInit demoMid rfl
     (fun _ hk => Option.noConfusion hk) demoReach⟩

/-- C5 (amended): of the three body shapes, `Methods.process_data`
handles the bare array and the doubly nested `{data: {data: [...]}}`
identically — one record per well-formed item, no diagnostics — but
the singly nested `{data: [...]}` shape always raises `AttributeError`
(`.get` is called on the inner list). -/
theorem c5_shapes (sim : J → J → ℚ) (t : ℚ) (items : List J)
    (h : ∀ item ∈ items, wfItemB item = true) :
    process_data_M (.arr items) sim t = .ok (items.map (recOf sim t), []) ∧
    process_data_M (doublyNested items) sim t = .ok (items.map (recOf sim t), []) ∧
    process_data_M (singlyNested items) sim t = .error "AttributeError" := by
  refine ⟨?_, ?_, ?_⟩
  · simp only [process_data_M]
    rw [getItemsM_arr, ok_bind]
    exact processItems_wf sim t items h
  · simp only [process_data_M]
    rw [getItemsM_doubly, ok_bind]
    exact processItems_wf sim t items h
  · simp only [process_data_M]
    rw [getItemsM_singly, error_bind]

/-- Refutation of C5 as stated: the singly nested body around one
well-formed item makes `process_data` raise `AttributeError` instead of
producing a record. -/
theorem c5_counterexample : ¬claimC5Prop := by
  intro h
  obtain ⟨-, ⟨out2, heq, -⟩, -⟩ := h (fun _ _ => 0) 0 [demoItem] (by decide)
  rw [show process_data_M (singlyNested [demoItem]) (fun _ _ => 0) 0 =
      Except.error "AttributeError" from rfl] at heq
  exact Except.noConfusion heq

theorem c5_witness :
    (∀ item ∈ [demoItem], wfItemB item = true) ∧
    (process_data_M (.arr [demoItem]) (fun _ _ => 0) 0 =
        .ok ([demoItem].map (recOf (fun _ _ => 0) 0), []) ∧
      process_data_M (doublyNested [demoItem]) (fun _ _ => 0) 0 =
        .ok ([demoItem].map (recOf (fun _ _ => 0) 0), []) ∧
      process_data_M (singlyNested [demoItem]) (fun _ _ => 0) 0 =
        .error "AttributeError") :=
  ⟨by decide, c5_shapes (fun _ _ => 0) 0 [demoItem] (by decide)⟩

/-- C6 (amended): an item that is not a dict is skipped with one
diagnostic and does not abort the page — a page of one non-dict item
between two well-formed items yields exactly the two well-formed
records plus one diagnostic.  (The claim fails for the other kind of
malformed item: a dict whose source lacks `id` aborts the whole page,
see the counterexample.) -/
theorem c6_nondict_skipped (sim : J → J → ℚ) (t : ℚ) (a m b : J)
    (ha : wfItemB a = true) (hb : wfItemB b = true) (hm : isObjB m = false) :
    processItems sim t [a, m, b] = .ok ([recOf sim t a, recOf sim t b], [skipMsg]) := by
  have h1 : processItems sim t [b] = .ok ([recOf sim t b], []) := by
    rw [processItems_cons_wf sim t [] hb rfl]
  have h2 : processItems sim t [m, b] = .ok ([recOf sim t b], [skipMsg]) := by
    rw [processItems_cons_skip sim t [b] hm h1]
  rw [processItems_cons_wf sim t [m, b] ha h2]

/-- Refutation of C6 as stated: a malformed dict item (its only source
lacks `id`) between two well-formed items makes the whole page abort
with `KeyError` instead of yielding two records. -/
theorem c6_counterexample : ¬claimC6Prop := by
  intro h
  obtain ⟨out, heq, -, -⟩ := h (fun _ _ => 0) 0 demoItem badDict demoItem rfl rfl rfl
  rw [show processItems (fun _ _ => 0) 0 [demoItem, badDict, demoItem] =
      Except.error "KeyError" from rfl] at heq
  exact Except.noConfusion heq

theorem c6_witness :
    (wfItemB demoItem = true) ∧ (isObjB (.str "oops") = false) ∧
    (processItems (fun _ _ => 0) 0 [demoItem, .str "oops", demoItem] =
      .ok ([recOf (fun _ _ => 0) 0 demoItem, recOf (fun _ _ => 0) 0 demoItem],
        [skipMsg])) :=
  ⟨rfl, rfl, c6_nondict_skipped (fun _ _ => 0) 0 demoItem (.str "oops") demoItem rfl rfl rfl⟩

/-- Refutation of C1 as stated: a record with response "hello" and a
source whose context "xyz" is not a substring of it still lists that
source among its citations. -/
theorem c1_counterexample : ¬claimC1Prop := by
  intro h
  have h2 := (h "hello" "xyz" (.num 1)
      ([mkRecordC (.str "hello") [projFn (srcOf (.num 1) "xyz")]], []) rfl).mp
    ⟨mkRecordC (.str "hello") [projFn (srcOf (.num 1) "xyz")], by simp,
     [projFn (srcOf (.num 1) "xyz")], rfl,
     projFn (srcOf (.num 1) "xyz"), by simp, rfl⟩
  exact absurd h2 (by decide)

/-- C1 (amended): the `Citationer` pipeline performs no substring (or
any other) test: for every well-formed item, every source is included
in the record's citations unconditionally, independent of the response
text. -/
theorem c1_all_sources_cited (resp : String) (srcs : List J)
    (h : ∀ s ∈ srcs, wfSourceB s = true) :
    process_data_C (doublyNested [itemOf resp srcs]) =
      .ok ([mkRecordC (.str resp) (srcs.map projFn)], []) := by
  have hwf : wfItemB (itemOf resp srcs) = true := by
    show srcs.all wfSourceB = true
    exact List.all_eq_true.mpr h
  simp only [process_data_C]
  rw [getItemsC_doubly, ok_bind, processItemsC_cons_wf [] hwf rfl]
  rfl

theorem c1_witness :
    (∀ s ∈ [srcOf (.num 1) "absent"], wfSourceB s = true) ∧
    process_data_C (doublyNested [itemOf "The sky" [srcOf (.num 1) "absent"]]) =
      .ok ([mkRecordC (.str "The sky") ([srcOf (.num 1) "absent"].map projFn)], []) :=
  ⟨by decide, c1_all_sources_cited "The sky" [srcOf (.num 1) "absent"] (by decide)⟩
